import Mathlib

/-!
Verification development for the palette-mutation program `gifthing.py`.

The core of the program is modelled over exact rationals (`ℚ`): the Python
floats of the source are shallowly embedded as rationals, Python's float
modulo `x % 1.0` as `pymod1`, and Python's `int()` truncation toward zero
as `pytrunc`.  Byte buffers are modelled as lists of integers (the sequence
of byte values the program writes).  The I/O plumbing (argparse, GIF stream
positioning) is outside the modelled core, as are the random draws, which
are supplied as an explicit stream `rand : ℕ → ℚ` consumed left to right.
-/

namespace Gifthing

/-- Python's `x % 1.0` on a real number: the fractional part, in `[0, 1)`. -/
def pymod1 (x : ℚ) : ℚ := x - ⌊x⌋

/-- Python's `int(x)`: truncation toward zero. -/
def pytrunc (x : ℚ) : ℤ := if x < 0 then -⌊-x⌋ else ⌊x⌋

/-- A color: an ordered triple of channel values. -/
abbrev Color (α : Type) := α × α × α

/-- `colorsys.rgb_to_hsv`, embedded over `ℚ` (CPython's formulas verbatim). -/
def rgb_to_hsv (c : Color ℚ) : Color ℚ :=
  let r := c.1
  let g := c.2.1
  let b := c.2.2
  let maxc := max r (max g b)
  let minc := min r (min g b)
  let rangec := maxc - minc
  let v := maxc
  if minc = maxc then (0, 0, v)
  else
    let s := rangec / maxc
    let rc := (maxc - r) / rangec
    let gc := (maxc - g) / rangec
    let bc := (maxc - b) / rangec
    let h0 := if r = maxc then bc - gc
              else if g = maxc then 2 + rc - bc
              else 4 + gc - rc
    (pymod1 (h0 / 6), s, v)

/-- `colorsys.hsv_to_rgb`, embedded over `ℚ` (CPython's formulas verbatim;
`int(h*6.0)` is `pytrunc`, Python's `i % 6` on ints is `Int.emod`). -/
def hsv_to_rgb (c : Color ℚ) : Color ℚ :=
  let h := c.1
  let s := c.2.1
  let v := c.2.2
  if s = 0 then (v, v, v)
  else
    let i0 := pytrunc (h * 6)
    let f := h * 6 - i0
    let p := v * (1 - s)
    let q := v * (1 - s * f)
    let t := v * (1 - s * (1 - f))
    let i := i0 % 6
    if i = 0 then (v, t, p)
    else if i = 1 then (q, v, p)
    else if i = 2 then (p, v, t)
    else if i = 3 then (p, q, v)
    else if i = 4 then (t, p, v)
    else (v, p, q)

/-- `table_hsv_to_rgb`: element-wise conversion of a palette. -/
def table_hsv_to_rgb (hsv_table : List (Color ℚ)) : List (Color ℚ) :=
  hsv_table.map hsv_to_rgb

/-- `table_rgb_to_hsv`: element-wise conversion of a palette. -/
def table_rgb_to_hsv (rgb_table : List (Color ℚ)) : List (Color ℚ) :=
  rgb_table.map rgb_to_hsv

/-- `table_int_to_float`: scale an integer palette into normalized form. -/
def table_int_to_float (table : List (Color ℤ)) : List (Color ℚ) :=
  table.map fun c => ((c.1 : ℚ) / 255, (c.2.1 : ℚ) / 255, (c.2.2 : ℚ) / 255)

/-- `table_float_to_bytes`: `bytes(int(255 * x) for x in chain.from_iterable(table))`.
The result is the list of byte values written back into the GIF. -/
def table_float_to_bytes (table : List (Color ℚ)) : List ℤ :=
  table.flatMap fun c => [pytrunc (255 * c.1), pytrunc (255 * c.2.1), pytrunc (255 * c.2.2)]

/-- `table_int_to_bytes`: `bytes(chain.from_iterable(table))`. -/
def table_int_to_bytes (table : List (Color ℤ)) : List ℤ :=
  table.flatMap fun c => [c.1, c.2.1, c.2.2]

/-- `set_color`: overwrite the channels listed in `color_settings`, keep the rest.
`tuple(color_settings.get(elem_num, orig_val) for elem_num, orig_val in enumerate(in_color))`. -/
def set_color {α : Type} (in_color : Color α) (color_settings : ℕ → Option α) : Color α :=
  ((color_settings 0).getD in_color.1,
   (color_settings 1).getD in_color.2.1,
   (color_settings 2).getD in_color.2.2)

/-- The `ColorMode` enum. -/
inductive ColorMode where
  | RGB
  | HSV
deriving DecidableEq, Repr

/-- The mutable fields of a `ColorGenerator` instance, plus `pos`, the read
position into the explicit stream of `random.random()` draws. -/
structure GenState where
  first_offset : Color ℚ
  first_offset_set : Bool
  always_use_first_offset : Bool
  constant_elems : List ℕ
  pos : ℕ
deriving DecidableEq, Repr

/-- `ColorGenerator.__init__`. -/
def ColorGenerator.mk' (constant_elems : List ℕ) (always_use_first_offset : Bool) : GenState :=
  ⟨(0, 0, 0), false, always_use_first_offset, constant_elems, 0⟩

/-- `ColorGenerator.generate_offset`: one fresh draw per channel not held
constant (`random.random() if not n in self.constant_elems else 0.0`); held
channels are forced to `0.0` and consume no randomness.  The first offset ever
drawn is cached unconditionally. -/
def generate_offset (rand : ℕ → ℚ) (s : GenState) : Color ℚ × GenState :=
  let d0 := if 0 ∈ s.constant_elems then ((0 : ℚ), s.pos) else (rand s.pos, s.pos + 1)
  let d1 := if 1 ∈ s.constant_elems then ((0 : ℚ), d0.2) else (rand d0.2, d0.2 + 1)
  let d2 := if 2 ∈ s.constant_elems then ((0 : ℚ), d1.2) else (rand d1.2, d1.2 + 1)
  let offset_t : Color ℚ := (d0.1, d1.1, d2.1)
  if s.first_offset_set then
    (offset_t, { s with pos := d2.2 })
  else
    (offset_t, { s with pos := d2.2, first_offset := offset_t, first_offset_set := true })

/-- `ColorGenerator.get_next_offset`: reuse the cached first offset when
configured to and it exists; otherwise delegate to `generate_offset`. -/
def get_next_offset (rand : ℕ → ℚ) (s : GenState) : Color ℚ × GenState :=
  if s.always_use_first_offset ∧ s.first_offset_set then (s.first_offset, s)
  else generate_offset rand s

/-- `ColorGenerator.generate_color`: add the next offset channel-wise, wrapping
with `% 1.0`. -/
def generate_color (rand : ℕ → ℚ) (s : GenState) (original_color : Color ℚ) :
    Color ℚ × GenState :=
  let os := get_next_offset rand s
  ((pymod1 (original_color.1 + os.1.1),
    pymod1 (original_color.2.1 + os.1.2.1),
    pymod1 (original_color.2.2 + os.1.2.2)), os.2)

/-- `ColorGenerator.generate_table`: apply `generate_color` to every entry in
order, threading the generator state left to right. -/
def generate_table (rand : ℕ → ℚ) (s : GenState) :
    List (Color ℚ) → List (Color ℚ) × GenState
  | [] => ([], s)
  | c :: cs =>
    let r := generate_color rand s c
    let rest := generate_table rand r.2 cs
    (r.1 :: rest.1, rest.2)

/-- The offsets applied by successive `generate_color` calls over a list of
inputs: the observation trace of `get_next_offset` along `generate_table`. -/
def offset_trace (rand : ℕ → ℚ) (s : GenState) : List (Color ℚ) → List (Color ℚ)
  | [] => []
  | c :: cs =>
    (get_next_offset rand s).1 :: offset_trace rand (generate_color rand s c).2 cs

/-- The pure palette-to-bytes part of `mode_setcolor`'s RGB branch:
`table_int_to_bytes([set_color(color, color_settings) for color in gif.colortable])`. -/
def mode_setcolor_rgb (colortable : List (Color ℤ)) (color_settings : ℕ → Option ℤ) :
    List ℤ :=
  table_int_to_bytes (colortable.map fun color => set_color color color_settings)

/-- The pure palette-to-bytes part of `mode_setcolor`'s HSV branch: convert the
integer palette to normalized HSV, overwrite the mapped channels, convert back
to RGB and denormalize to bytes. -/
def mode_setcolor_hsv (colortable : List (Color ℤ)) (color_settings : ℕ → Option ℚ) :
    List ℤ :=
  let hsv_tab := table_rgb_to_hsv (table_int_to_float colortable)
  let new_hsv_tab := hsv_tab.map fun color => set_color color color_settings
  table_float_to_bytes (table_hsv_to_rgb new_hsv_tab)

/-- `CHAR_TO_COLOR_ELEM` lookup map (characters of the `--hold` string). -/
def CHAR_TO_COLOR_ELEM (c : Char) : Option ℕ :=
  if c = 'r' then some 0
  else if c = 'g' then some 1
  else if c = 'b' then some 2
  else if c = 'h' then some 0
  else if c = 's' then some 1
  else if c = 'v' then some 2
  else none

/-- `calc_hold_set`: lower-case the `--hold` string, take its set of
characters, reject any character outside `CHAR_TO_COLOR_ELEM`, and map the
rest to channel indices.  `parser.error` is modelled as `Except.error`. -/
def calc_hold_set (hold_str : String) : Except String (Finset ℕ) :=
  let charset := (hold_str.data.map Char.toLower).dedup
  if charset.all fun c => (CHAR_TO_COLOR_ELEM c).isSome then
    Except.ok (charset.filterMap CHAR_TO_COLOR_ELEM).toFinset
  else
    Except.error "--hold: bad char"

/-- The six optional channel constants of the `setcolor` mode, as parsed by
argparse (`type=int` for RGB, `type=float` for HSV; absent means `None`). -/
structure SetColorArgs where
  red : Option ℤ
  green : Option ℤ
  blue : Option ℤ
  hue : Option ℚ
  saturation : Option ℚ
  value : Option ℚ
deriving DecidableEq, Repr

/-- The channel map returned by `parse_setcolor_value`, as a triple of
optional per-channel constants (channel index 0, 1, 2). -/
abbrev ColorSettings := Option ℚ × Option ℚ × Option ℚ

/-- `parse_setcolor_value`: reject mixed RGB/HSV constants, reject an empty
selection, range-check the supplied values, and return the map of supplied
channels with the chosen mode.  `parser.error` is modelled as `Except.error`;
the RGB integers are returned cast to `ℚ`. -/
def parse_setcolor_value (args : SetColorArgs) :
    Except String (ColorSettings × ColorMode) :=
  let is_rgb := args.red.isSome || args.green.isSome || args.blue.isSome
  let is_hsv := args.hue.isSome || args.saturation.isSome || args.value.isSome
  if is_rgb && is_hsv then
    Except.error "Must specify only RGB or only HSV values."
  else if !(is_rgb || is_hsv) then
    Except.error "Must specify at least one color value."
  else if is_hsv then
    let colors : ColorSettings := (args.hue, args.saturation, args.value)
    if (args.hue.any fun c => decide (c < 0) || decide (1 < c)) ||
       (args.saturation.any fun c => decide (c < 0) || decide (1 < c)) ||
       (args.value.any fun c => decide (c < 0) || decide (1 < c)) then
      Except.error "HSV: All values must be between 0 and 1."
    else
      Except.ok (colors, ColorMode.HSV)
  else
    let colors : ColorSettings :=
      (args.red.map (Int.cast : ℤ → ℚ), args.green.map (Int.cast : ℤ → ℚ),
       args.blue.map (Int.cast : ℤ → ℚ))
    if (args.red.any fun c => decide (c < 0) || decide (255 < c)) ||
       (args.green.any fun c => decide (c < 0) || decide (255 < c)) ||
       (args.blue.any fun c => decide (c < 0) || decide (255 < c)) then
      Except.error "RGB: All values must be between 0 and 255"
    else
      Except.ok (colors, ColorMode.RGB)

/-! ## General lemmas about the embedding -/

theorem pymod1_eq_fract (x : ℚ) : pymod1 x = Int.fract x := rfl

theorem pymod1_mem_Ico (x : ℚ) : 0 ≤ pymod1 x ∧ pymod1 x < 1 := by
  rw [pymod1_eq_fract]
  exact ⟨Int.fract_nonneg x, Int.fract_lt_one x⟩

theorem pymod1_eq_self {x : ℚ} (h0 : 0 ≤ x) (h1 : x < 1) : pymod1 x = x := by
  rw [pymod1_eq_fract]
  exact Int.fract_eq_self.mpr ⟨h0, h1⟩

theorem flatMap3_length {α β : Type} (f0 f1 f2 : α → β) (l : List α) :
    (l.flatMap fun c => [f0 c, f1 c, f2 c]).length = 3 * l.length := by
  induction l with
  | nil => simp
  | cons a l ih =>
    simp only [List.flatMap_cons, List.length_append, List.length_cons, ih, List.length_nil]
    ring

theorem flatMap3_getD {α β : Type} (f0 f1 f2 : α → β) (d : β) (l : List α) :
    ∀ (i : ℕ) (hi : i < l.length),
      ((l.flatMap fun c => [f0 c, f1 c, f2 c]).getD (3 * i) d = f0 (l.get ⟨i, hi⟩)) ∧
      ((l.flatMap fun c => [f0 c, f1 c, f2 c]).getD (3 * i + 1) d = f1 (l.get ⟨i, hi⟩)) ∧
      ((l.flatMap fun c => [f0 c, f1 c, f2 c]).getD (3 * i + 2) d = f2 (l.get ⟨i, hi⟩)) := by
  induction l with
  | nil => intro i hi; simp at hi
  | cons a l ih =>
    intro i hi
    cases i with
    | zero => simp [List.flatMap_cons]
    | succ i =>
      have hi' : i < l.length := by simpa using hi
      have key : ∀ j : ℕ,
          (((a :: l).flatMap fun c => [f0 c, f1 c, f2 c]).getD (3 * (i + 1) + j) d) =
            ((l.flatMap fun c => [f0 c, f1 c, f2 c]).getD (3 * i + j) d) := by
        intro j
        have e : 3 * (i + 1) + j = 3 * i + j + 1 + 1 + 1 := by ring
        rw [e, List.flatMap_cons]
        simp [List.getD_cons_succ]
      have key0 :
          (((a :: l).flatMap fun c => [f0 c, f1 c, f2 c]).getD (3 * (i + 1)) d) =
            ((l.flatMap fun c => [f0 c, f1 c, f2 c]).getD (3 * i) d) := by
        simpa using key 0
      obtain ⟨e0, e1, e2⟩ := ih i hi'
      refine ⟨?_, ?_, ?_⟩
      · rw [key0, e0]; simp
      · rw [key 1, e1]; simp
      · rw [key 2, e2]; simp

theorem pytrunc_scale_mem {x : ℚ} (h0 : 0 ≤ x) (h1 : x ≤ 1) :
    0 ≤ pytrunc (255 * x) ∧ pytrunc (255 * x) ≤ 255 := by
  have h255 : (0 : ℚ) ≤ 255 * x := by positivity
  rw [pytrunc, if_neg (not_lt.mpr h255)]
  refine ⟨Int.floor_nonneg.mpr h255, ?_⟩
  have hle : (255 : ℚ) * x ≤ 255 := by linarith
  calc ⌊(255 : ℚ) * x⌋ ≤ ⌊(255 : ℚ)⌋ := Int.floor_le_floor hle
    _ = 255 := by norm_num

/-- The byte-level reading of `mode_setcolor`'s RGB branch, shared by the
claims about the integer-domain set transform. -/
theorem mode_setcolor_rgb_bytes (table : List (Color ℤ)) (m : ℕ → Option ℤ) :
    (mode_setcolor_rgb table m).length = 3 * table.length ∧
    ∀ (i : ℕ) (hi : i < table.length),
      (mode_setcolor_rgb table m).getD (3 * i) 0 = (m 0).getD (table.get ⟨i, hi⟩).1 ∧
      (mode_setcolor_rgb table m).getD (3 * i + 1) 0 = (m 1).getD (table.get ⟨i, hi⟩).2.1 ∧
      (mode_setcolor_rgb table m).getD (3 * i + 2) 0 = (m 2).getD (table.get ⟨i, hi⟩).2.2 := by
  have he : mode_setcolor_rgb table m =
      table.flatMap fun c => [(m 0).getD c.1, (m 1).getD c.2.1, (m 2).getD c.2.2] := by
    simp [mode_setcolor_rgb, table_int_to_bytes, set_color, List.flatMap_map, Function.comp]
  constructor
  · rw [he]
    exact flatMap3_length _ _ _ table
  · intro i hi
    rw [he]
    exact flatMap3_getD _ _ _ _ table i hi

/-! ## Claim theorems -/

/-- C6: applying the fixed-value transform with constant map `{0: 10}` in the
integer domain to the palette `[(1,2,3),(4,5,6)]` yields `[(10,2,3),(10,5,6)]`,
and the byte buffer is exactly `0a 02 03 0a 05 06`. -/
theorem setcolor_rgb_concrete :
    (([((1:ℤ), 2, 3), (4, 5, 6)] : List (Color ℤ)).map
        fun c => set_color c (fun n => if n = 0 then some (10 : ℤ) else none)) =
      [(10, 2, 3), (10, 5, 6)] ∧
    table_int_to_bytes [((10:ℤ), 2, 3), (10, 5, 6)] = [10, 2, 3, 10, 5, 6] ∧
    mode_setcolor_rgb [((1:ℤ), 2, 3), (4, 5, 6)]
        (fun n => if n = 0 then some (10 : ℤ) else none) =
      [10, 2, 3, 10, 5, 6] := by
  decide

/-- C5: `generate_color` computes, per channel, `(original + offset) % 1.0`:
for original and offset in `[0, 1)` (indeed, for any rational inputs) the
wrapped sum stays in `[0, 1)` — the perturbation wraps instead of saturating
or clipping. -/
theorem generate_color_wrap (rand : ℕ → ℚ) (s : GenState) (c : Color ℚ)
    (original offset : ℚ) (ho0 : 0 ≤ original) (ho1 : original < 1)
    (hf0 : 0 ≤ offset) (hf1 : offset < 1) :
    (0 ≤ pymod1 (original + offset) ∧ pymod1 (original + offset) < 1) ∧
    (generate_color rand s c).1 =
      (pymod1 (c.1 + (get_next_offset rand s).1.1),
       pymod1 (c.2.1 + (get_next_offset rand s).1.2.1),
       pymod1 (c.2.2 + (get_next_offset rand s).1.2.2)) ∧
    (0 ≤ (generate_color rand s c).1.1 ∧ (generate_color rand s c).1.1 < 1) ∧
    (0 ≤ (generate_color rand s c).1.2.1 ∧ (generate_color rand s c).1.2.1 < 1) ∧
    (0 ≤ (generate_color rand s c).1.2.2 ∧ (generate_color rand s c).1.2.2 < 1) :=
  ⟨pymod1_mem_Ico _, rfl, pymod1_mem_Ico _, pymod1_mem_Ico _, pymod1_mem_Ico _⟩

theorem generate_color_wrap_witness :
    0 ≤ pymod1 ((1:ℚ)/2 + 1/2) ∧ pymod1 ((1:ℚ)/2 + 1/2) < 1 :=
  (generate_color_wrap (fun _ => 0) (ColorGenerator.mk' [] false) (0, 0, 0)
    (1/2) (1/2) (by norm_num) (by norm_num) (by norm_num) (by norm_num)).1

/-- C9: `table_float_to_bytes` produces a byte sequence of length `3 * N` in
which the byte at position `3*i + j` is the truncation toward zero of `255`
times channel `j` of entry `i` (entry-major, channel-minor order), each value
being a byte in `[0, 255]`. -/
theorem table_float_to_bytes_spec (table : List (Color ℚ))
    (hnorm : ∀ c ∈ table, (0 ≤ c.1 ∧ c.1 ≤ 1) ∧ (0 ≤ c.2.1 ∧ c.2.1 ≤ 1) ∧
      (0 ≤ c.2.2 ∧ c.2.2 ≤ 1)) :
    (table_float_to_bytes table).length = 3 * table.length ∧
    (∀ (i : ℕ) (hi : i < table.length),
      (table_float_to_bytes table).getD (3 * i) 0 = pytrunc (255 * (table.get ⟨i, hi⟩).1) ∧
      (table_float_to_bytes table).getD (3 * i + 1) 0 = pytrunc (255 * (table.get ⟨i, hi⟩).2.1) ∧
      (table_float_to_bytes table).getD (3 * i + 2) 0 = pytrunc (255 * (table.get ⟨i, hi⟩).2.2)) ∧
    (∀ v ∈ table_float_to_bytes table, 0 ≤ v ∧ v ≤ 255) := by
  refine ⟨flatMap3_length _ _ _ table, fun i hi => flatMap3_getD _ _ _ _ table i hi, ?_⟩
  intro v hv
  simp only [table_float_to_bytes, List.mem_flatMap, List.mem_cons, List.not_mem_nil,
    or_false] at hv
  obtain ⟨c, hc, hcase⟩ := hv
  obtain ⟨⟨h00, h01⟩, ⟨h10, h11⟩, ⟨h20, h21⟩⟩ := hnorm c hc
  rcases hcase with h | h | h <;> rw [h]
  · exact pytrunc_scale_mem h00 h01
  · exact pytrunc_scale_mem h10 h11
  · exact pytrunc_scale_mem h20 h21

theorem table_float_to_bytes_spec_witness :
    (table_float_to_bytes [((1:ℚ)/2, 0, 1)]).length =
      3 * ([((1:ℚ)/2, 0, 1)] : List (Color ℚ)).length ∧
    (table_float_to_bytes [((1:ℚ)/2, 0, 1)]).getD 0 0 =
      pytrunc (255 * (([((1:ℚ)/2, 0, 1)] : List (Color ℚ)).get ⟨0, by decide⟩).1) :=
  ⟨(table_float_to_bytes_spec [((1:ℚ)/2, 0, 1)]
      (by intro c hc; rw [List.mem_singleton] at hc; subst hc; norm_num)).1,
   by simpa using ((table_float_to_bytes_spec [((1:ℚ)/2, 0, 1)]
      (by intro c hc; rw [List.mem_singleton] at hc; subst hc; norm_num)).2.1 0
     (by decide)).1⟩

/-- C10: the integer-domain set transform goes straight from the integer
palette to bytes: every unmapped channel position holds the original integer
channel value bit-for-bit, and every mapped position holds the supplied
constant exactly — no normalize/denormalize round trip is involved. -/
theorem mode_setcolor_rgb_exact (table : List (Color ℤ)) (m : ℕ → Option ℤ) :
    (mode_setcolor_rgb table m).length = 3 * table.length ∧
    ∀ (i : ℕ) (hi : i < table.length),
      (mode_setcolor_rgb table m).getD (3 * i) 0 = (m 0).getD (table.get ⟨i, hi⟩).1 ∧
      (mode_setcolor_rgb table m).getD (3 * i + 1) 0 = (m 1).getD (table.get ⟨i, hi⟩).2.1 ∧
      (mode_setcolor_rgb table m).getD (3 * i + 2) 0 = (m 2).getD (table.get ⟨i, hi⟩).2.2 :=
  mode_setcolor_rgb_bytes table m

theorem mode_setcolor_rgb_exact_witness :
    (mode_setcolor_rgb [((5:ℤ), 6, 7)] (fun n => if n = 0 then some 9 else none)).length =
      3 * ([((5:ℤ), 6, 7)] : List (Color ℤ)).length ∧
    (mode_setcolor_rgb [((5:ℤ), 6, 7)] (fun n => if n = 0 then some 9 else none)).getD 0 0 =
      ((fun n => if n = 0 then some (9:ℤ) else none) 0).getD
        (([((5:ℤ), 6, 7)] : List (Color ℤ)).get ⟨0, by decide⟩).1 :=
  ⟨(mode_setcolor_rgb_exact [((5:ℤ), 6, 7)] _).1,
   ((mode_setcolor_rgb_exact [((5:ℤ), 6, 7)] _).2 0 (by decide)).1⟩

/-- A single `generate_color` call on a state that holds all three channels and
whose cached offset (if set) is zero: the offset applied is zero, and both
properties are preserved. -/
theorem generate_color_hold_step (rand : ℕ → ℚ) (s : GenState) (c : Color ℚ)
    (h0 : 0 ∈ s.constant_elems) (h1 : 1 ∈ s.constant_elems) (h2 : 2 ∈ s.constant_elems)
    (hfo : s.first_offset_set = true → s.first_offset = (0, 0, 0)) :
    (generate_color rand s c).1 = (pymod1 c.1, pymod1 c.2.1, pymod1 c.2.2) ∧
    (generate_color rand s c).2.constant_elems = s.constant_elems ∧
    ((generate_color rand s c).2.first_offset_set = true →
      (generate_color rand s c).2.first_offset = (0, 0, 0)) := by
  by_cases hc : s.always_use_first_offset = true ∧ s.first_offset_set = true
  · have hoff := hfo hc.2
    simp [generate_color, get_next_offset, hc.1, hc.2, hoff, hfo]
  · have hgo : get_next_offset rand s = generate_offset rand s := by
      simp only [get_next_offset]
      rw [if_neg hc]
    by_cases hs : s.first_offset_set = true <;>
      simp [generate_color, hgo, generate_offset, h0, h1, h2, hs, hfo]

theorem generate_table_hold_aux (rand : ℕ → ℚ) :
    ∀ (table : List (Color ℚ)) (s : GenState),
      0 ∈ s.constant_elems → 1 ∈ s.constant_elems → 2 ∈ s.constant_elems →
      (s.first_offset_set = true → s.first_offset = (0, 0, 0)) →
      (∀ c ∈ table, (0 ≤ c.1 ∧ c.1 < 1) ∧ (0 ≤ c.2.1 ∧ c.2.1 < 1) ∧
        (0 ≤ c.2.2 ∧ c.2.2 < 1)) →
      (generate_table rand s table).1 = table := by
  intro table
  induction table with
  | nil => intro s _ _ _ _ _; simp [generate_table]
  | cons c cs ih =>
    intro s h0 h1 h2 hfo hn
    obtain ⟨hgc, hce, hfo'⟩ := generate_color_hold_step rand s c h0 h1 h2 hfo
    obtain ⟨⟨hb1, hb2⟩, ⟨hb3, hb4⟩, hb5, hb6⟩ := hn c (List.mem_cons_self c cs)
    have hc_eq : (generate_color rand s c).1 = c := by
      rw [hgc, pymod1_eq_self hb1 hb2, pymod1_eq_self hb3 hb4, pymod1_eq_self hb5 hb6]
    simp only [generate_table]
    rw [hc_eq]
    rw [ih (generate_color rand s c).2 (hce ▸ h0) (hce ▸ h1) (hce ▸ h2) hfo'
      (fun d hd => hn d (List.mem_cons_of_mem c hd))]

/-- C1 (amended): for every palette whose entries have all channels in
`[0.0, 1.0)` and a hold-set containing all three channel indices `{0,1,2}`,
the generated table equals the input table: the offset is forced to `0.0` on
every held channel, and `(x + 0.0) % 1.0 = x` on `[0, 1)`.  (At a channel value
of exactly `1.0` the wrap sends it to `0.0`, see the counterexample.) -/
theorem generate_table_hold_all (rand : ℕ → ℚ) (es : List ℕ) (u : Bool)
    (table : List (Color ℚ)) (h0 : 0 ∈ es) (h1 : 1 ∈ es) (h2 : 2 ∈ es)
    (hn : ∀ c ∈ table, (0 ≤ c.1 ∧ c.1 < 1) ∧ (0 ≤ c.2.1 ∧ c.2.1 < 1) ∧
      (0 ≤ c.2.2 ∧ c.2.2 < 1)) :
    (generate_table rand (ColorGenerator.mk' es u) table).1 = table :=
  generate_table_hold_aux rand table (ColorGenerator.mk' es u) h0 h1 h2
    (by simp [ColorGenerator.mk']) hn

theorem generate_table_hold_all_witness :
    (generate_table (fun _ => 0) (ColorGenerator.mk' [0, 1, 2] false)
      [((1:ℚ)/2, 0, 3/4)]).1 = [((1:ℚ)/2, 0, 3/4)] :=
  generate_table_hold_all (fun _ => 0) [0, 1, 2] false [((1:ℚ)/2, 0, 3/4)]
    (by decide) (by decide) (by decide)
    (by intro c hc; rw [List.mem_singleton] at hc; subst hc; norm_num)

/-- C1 counterexample: the claim fails on the closed endpoint of `[0.0, 1.0]`.
The all-white entry `(1.0, 1.0, 1.0)` — produced by `table_int_to_float` from
`(255, 255, 255)` — is changed to `(0.0, 0.0, 0.0)` by `generate_color` even
though all three channels are held, because `(1.0 + 0.0) % 1.0 = 0.0`. -/
theorem generate_color_hold_cx :
    (generate_color (fun _ => 0) (ColorGenerator.mk' [0, 1, 2] false) (1, 1, 1)).1 =
      (0, 0, 0) ∧
    table_int_to_float [(255, 255, 255)] = [(1, 1, 1)] ∧
    ((1:ℚ), (1:ℚ), (1:ℚ)) ≠ ((0:ℚ), (0:ℚ), (0:ℚ)) := by
  refine ⟨?_, by norm_num [table_int_to_float], by norm_num [Prod.ext_iff]⟩
  simp [generate_color, get_next_offset, generate_offset, ColorGenerator.mk']
  norm_num [pymod1]

/-- C8: hold-set parsing is case-insensitive over the fixed alphabet
`{r,g,b,h,s,v}`: `"Rb"` yields `{0, 2}`; any input containing a character
whose lower-case form lies outside that alphabet — in particular `"x"` — is
rejected as a configuration error; every successfully parsed hold set is a
subset of `{0, 1, 2}`. -/
theorem calc_hold_set_spec :
    calc_hold_set "Rb" = Except.ok {0, 2} ∧
    calc_hold_set "x" = Except.error "--hold: bad char" ∧
    (∀ (s : String) (c : Char), c ∈ s.data →
      c.toLower ∉ (['r', 'g', 'b', 'h', 's', 'v'] : List Char) →
      calc_hold_set s = Except.error "--hold: bad char") ∧
    ∀ (s : String) (r : Finset ℕ), calc_hold_set s = Except.ok r →
      r ⊆ ({0, 1, 2} : Finset ℕ) := by
  refine ⟨by simp [calc_hold_set, CHAR_TO_COLOR_ELEM],
    by simp [calc_hold_set, CHAR_TO_COLOR_ELEM], ?_, ?_⟩
  · intro s c hc hno
    have hmem : c.toLower ∈ (s.data.map Char.toLower).dedup := by
      rw [List.mem_dedup]
      exact List.mem_map_of_mem Char.toLower hc
    have hnone : CHAR_TO_COLOR_ELEM c.toLower = none := by
      unfold CHAR_TO_COLOR_ELEM
      split_ifs <;> simp_all
    have hall : ((s.data.map Char.toLower).dedup.all
        fun c => (CHAR_TO_COLOR_ELEM c).isSome) = false := by
      rw [List.all_eq_false]
      exact ⟨c.toLower, hmem, by simp [hnone]⟩
    simp [calc_hold_set, hall]
  · intro s r h
    simp only [calc_hold_set] at h
    split at h
    case isTrue =>
      rw [Except.ok.injEq] at h
      subst h
      intro x hx
      rw [List.mem_toFinset, List.mem_filterMap] at hx
      obtain ⟨c, _, hmap⟩ := hx
      unfold CHAR_TO_COLOR_ELEM at hmap
      split_ifs at hmap <;> · rw [Option.some.injEq] at hmap; subst hmap; decide
    case isFalse => exact absurd h (by simp)

theorem calc_hold_set_spec_witness :
    ({0, 2} : Finset ℕ) ⊆ ({0, 1, 2} : Finset ℕ) ∧
    calc_hold_set "qb" = Except.error "--hold: bad char" :=
  ⟨calc_hold_set_spec.2.2.2 "Rb" {0, 2} calc_hold_set_spec.1,
   calc_hold_set_spec.2.2.1 "qb" 'q' (by decide) (by decide)⟩

theorem get_next_offset_reuse (rand : ℕ → ℚ) (s : GenState)
    (ha : s.always_use_first_offset = true) (hs : s.first_offset_set = true) :
    get_next_offset rand s = (s.first_offset, s) := by
  simp [get_next_offset, ha, hs]

theorem generate_offset_caches (rand : ℕ → ℚ) (s : GenState)
    (h : s.first_offset_set = false) :
    (generate_offset rand s).2.first_offset = (generate_offset rand s).1 ∧
    (generate_offset rand s).2.first_offset_set = true ∧
    (generate_offset rand s).2.always_use_first_offset = s.always_use_first_offset := by
  simp [generate_offset, h]

theorem offset_trace_replicate (rand : ℕ → ℚ) (s : GenState)
    (ha : s.always_use_first_offset = true) (hs : s.first_offset_set = true) :
    ∀ cs : List (Color ℚ), offset_trace rand s cs =
      List.replicate cs.length s.first_offset := by
  intro cs
  induction cs with
  | nil => simp [offset_trace]
  | cons c cs ih =>
    have hstate : (generate_color rand s c).2 = s := by
      simp [generate_color, get_next_offset_reuse rand s ha hs]
    simp only [offset_trace, List.length_cons, List.replicate_succ, hstate, ih,
      get_next_offset_reuse rand s ha hs]

/-- C4: with reuse-first-offset mode enabled, all `generate_color` calls on the
same freshly constructed generator apply the same per-channel offsets; and
`get_next_offset` returns the cached first offset without touching the
randomness stream whenever reuse mode is on and the cache is set, otherwise it
delegates to `generate_offset`. -/
theorem reuse_first_offset_spec :
    (∀ (rand : ℕ → ℚ) (es : List ℕ) (cs : List (Color ℚ)) (o1 o2 : Color ℚ),
        o1 ∈ offset_trace rand (ColorGenerator.mk' es true) cs →
        o2 ∈ offset_trace rand (ColorGenerator.mk' es true) cs → o1 = o2) ∧
    (∀ (rand : ℕ → ℚ) (s : GenState),
        (s.always_use_first_offset = true → s.first_offset_set = true →
          get_next_offset rand s = (s.first_offset, s)) ∧
        (s.always_use_first_offset = false ∨ s.first_offset_set = false →
          get_next_offset rand s = generate_offset rand s)) := by
  constructor
  · intro rand es cs o1 o2 hm1 hm2
    match cs with
    | [] => simp [offset_trace] at hm1
    | c :: cs =>
      have hdel : get_next_offset rand (ColorGenerator.mk' es true) =
          generate_offset rand (ColorGenerator.mk' es true) := by
        simp [get_next_offset, ColorGenerator.mk']
      have hcache := generate_offset_caches rand (ColorGenerator.mk' es true) rfl
      have hs1 : (generate_color rand (ColorGenerator.mk' es true) c).2 =
          (generate_offset rand (ColorGenerator.mk' es true)).2 := by
        simp [generate_color, hdel]
      have halways : (generate_color rand (ColorGenerator.mk' es true) c).2.always_use_first_offset = true := by
        rw [hs1, hcache.2.2]; rfl
      have hset : (generate_color rand (ColorGenerator.mk' es true) c).2.first_offset_set = true := by
        rw [hs1]; exact hcache.2.1
      have hhead : (get_next_offset rand (ColorGenerator.mk' es true)).1 =
          (generate_color rand (ColorGenerator.mk' es true) c).2.first_offset := by
        rw [hs1, hcache.1, hdel]
      have htr : offset_trace rand (ColorGenerator.mk' es true) (c :: cs) =
          List.replicate (cs.length + 1)
            (generate_color rand (ColorGenerator.mk' es true) c).2.first_offset := by
        simp only [offset_trace]
        rw [offset_trace_replicate rand _ halways hset cs, hhead, List.replicate_succ]
      rw [htr] at hm1 hm2
      rw [List.eq_of_mem_replicate hm1, List.eq_of_mem_replicate hm2]
  · intro rand s
    constructor
    · intro ha hs; exact get_next_offset_reuse rand s ha hs
    · intro h
      have hneg : ¬(s.always_use_first_offset = true ∧ s.first_offset_set = true) := by
        rcases h with h | h <;> simp [h]
      simp only [get_next_offset]
      rw [if_neg hneg]

theorem reuse_trace_example :
    offset_trace (fun n => (n + 1 : ℚ)/10) (ColorGenerator.mk' [] true)
      [(0, 0, 0), ((1:ℚ)/2, 1/2, 1/2)] =
    [((1:ℚ)/10, 1/5, 3/10), ((1:ℚ)/10, 1/5, 3/10)] := by
  norm_num [offset_trace, get_next_offset, generate_offset, generate_color,
    ColorGenerator.mk']

theorem reuse_first_offset_spec_witness :
    ((1:ℚ)/10, (1:ℚ)/5, (3:ℚ)/10) = ((1:ℚ)/10, (1:ℚ)/5, (3:ℚ)/10) :=
  reuse_first_offset_spec.1 (fun n => (n + 1 : ℚ)/10) [] [(0, 0, 0), ((1:ℚ)/2, 1/2, 1/2)]
    _ _ (by rw [reuse_trace_example]; simp) (by rw [reuse_trace_example]; simp)

/-- C2 counterexample: in the normalized/HSV representation the output byte
buffer does not hold unmapped channels unchanged.  Setting saturation
(channel 1) to `0.0` on the palette `[(255, 0, 0)]` produces the byte buffer
`[255, 255, 255]`: the byte at position 2 — channel 2, which is not in the
map — is `255`, not the original channel value `0`. -/
theorem setcolor_hsv_bytes_cx :
    mode_setcolor_hsv [(255, 0, 0)] (fun n => if n = 1 then some 0 else none) =
      [255, 255, 255] ∧
    (mode_setcolor_hsv [(255, 0, 0)] (fun n => if n = 1 then some 0 else none)).getD 2 0 ≠
      ((255:ℤ), (0:ℤ), (0:ℤ)).2.2 := by
  have h : mode_setcolor_hsv [(255, 0, 0)] (fun n => if n = 1 then some 0 else none) =
      [255, 255, 255] := by
    simp [mode_setcolor_hsv, table_rgb_to_hsv, table_int_to_float, table_hsv_to_rgb,
      table_float_to_bytes, set_color]
    norm_num [rgb_to_hsv, hsv_to_rgb, pymod1, pytrunc]
  exact ⟨h, by rw [h]; norm_num⟩

/-- C2 (amended): `set_color` overwrites exactly the mapped channels and keeps
the rest, in both representations, at the palette level; in the integer/RGB
representation this is observed byte-for-byte in the output buffer, while in
the normalized/HSV representation the buffer holds the denormalized RGB
conversion of the transformed HSV palette (not the HSV channel values
themselves). -/
theorem setcolor_transform_spec (table : List (Color ℤ)) (mi : ℕ → Option ℤ)
    (mq : ℕ → Option ℚ) :
    ((mode_setcolor_rgb table mi).length = 3 * table.length ∧
      ∀ (i : ℕ) (hi : i < table.length),
        (mode_setcolor_rgb table mi).getD (3 * i) 0 = (mi 0).getD (table.get ⟨i, hi⟩).1 ∧
        (mode_setcolor_rgb table mi).getD (3 * i + 1) 0 = (mi 1).getD (table.get ⟨i, hi⟩).2.1 ∧
        (mode_setcolor_rgb table mi).getD (3 * i + 2) 0 = (mi 2).getD (table.get ⟨i, hi⟩).2.2) ∧
    (((table_rgb_to_hsv (table_int_to_float table)).map fun c => set_color c mq).length =
        table.length ∧
      (∀ (i : ℕ) (hi : i < (table_rgb_to_hsv (table_int_to_float table)).length),
        ((table_rgb_to_hsv (table_int_to_float table)).map fun c => set_color c mq).get
            ⟨i, by simpa using hi⟩ =
          ((mq 0).getD ((table_rgb_to_hsv (table_int_to_float table)).get ⟨i, hi⟩).1,
           (mq 1).getD ((table_rgb_to_hsv (table_int_to_float table)).get ⟨i, hi⟩).2.1,
           (mq 2).getD ((table_rgb_to_hsv (table_int_to_float table)).get ⟨i, hi⟩).2.2)) ∧
      mode_setcolor_hsv table mq =
        table_float_to_bytes (table_hsv_to_rgb
          ((table_rgb_to_hsv (table_int_to_float table)).map fun c => set_color c mq))) := by
  refine ⟨mode_setcolor_rgb_bytes table mi, ?_, ?_, rfl⟩
  · simp [table_rgb_to_hsv, table_int_to_float]
  · intro i hi
    rw [List.get_map]
    rfl

theorem setcolor_transform_spec_witness :
    (mode_setcolor_rgb [((1:ℤ), 2, 3)] (fun _ => none)).length =
      3 * ([((1:ℤ), 2, 3)] : List (Color ℤ)).length ∧
    (mode_setcolor_rgb [((1:ℤ), 2, 3)] (fun _ => none)).getD 0 0 =
      ((fun _ => (none : Option ℤ)) 0).getD (([((1:ℤ), 2, 3)] : List (Color ℤ)).get ⟨0, by decide⟩).1 :=
  ⟨(setcolor_transform_spec [((1:ℤ), 2, 3)] (fun _ => none) (fun _ => none)).1.1,
   ((setcolor_transform_spec [((1:ℤ), 2, 3)] (fun _ => none) (fun _ => none)).1.2 0
     (by decide)).1⟩

theorem exists_error_ite_iff (c : Prop) (inst : Decidable c) (e0 : String)
    (x : ColorSettings × ColorMode) :
    (∃ e, (if c then Except.error e0 else Except.ok x) = Except.error e) ↔ c := by
  by_cases hc : c <;> simp [hc]

/-- C7: `parse_setcolor_value` raises a configuration error iff RGB and HSV
channel names are mixed, or no channel value is supplied, or a supplied RGB
value is outside `[0, 255]`, or a supplied HSV value is outside `[0, 1]`;
otherwise it succeeds and returns exactly the map of supplied channels. -/
theorem parse_setcolor_spec (args : SetColorArgs) :
    ((∃ e, parse_setcolor_value args = Except.error e) ↔
      (((args.red ≠ none ∨ args.green ≠ none ∨ args.blue ≠ none) ∧
        (args.hue ≠ none ∨ args.saturation ≠ none ∨ args.value ≠ none)) ∨
       (args.red = none ∧ args.green = none ∧ args.blue = none ∧
        args.hue = none ∧ args.saturation = none ∧ args.value = none) ∨
       (∃ v : ℤ, (args.red = some v ∨ args.green = some v ∨ args.blue = some v) ∧
         (v < 0 ∨ 255 < v)) ∨
       (∃ v : ℚ, (args.hue = some v ∨ args.saturation = some v ∨ args.value = some v) ∧
         (v < 0 ∨ 1 < v)))) ∧
    (∀ (m : ColorSettings) (mode : ColorMode),
      parse_setcolor_value args = Except.ok (m, mode) →
      (mode = ColorMode.HSV → m = (args.hue, args.saturation, args.value)) ∧
      (mode = ColorMode.RGB →
        m = (args.red.map (Int.cast : ℤ → ℚ), args.green.map (Int.cast : ℤ → ℚ),
             args.blue.map (Int.cast : ℤ → ℚ)))) := by
  obtain ⟨r, g, b, hu, sa, va⟩ := args
  cases r <;> cases g <;> cases b <;> cases hu <;> cases sa <;> cases va <;>
    · constructor
      · simp only [parse_setcolor_value, Option.isSome_none, Option.isSome_some,
          Bool.false_or, Bool.or_false, Bool.true_or, Bool.or_true, Bool.and_true,
          Bool.true_and, Bool.false_and, Bool.and_false, Bool.not_true, Bool.not_false,
          if_true, if_false, Bool.or_self, Bool.false_eq_true, Bool.true_eq_false,
          Option.any_some, Option.any_none]
        first
          | (rw [exists_error_ite_iff]
             simp [or_and_right, exists_or, exists_eq_left']
             try tauto)
          | (simp; try tauto)
      · intro m mode hok
        simp only [parse_setcolor_value, Option.isSome_none, Option.isSome_some,
          Bool.false_or, Bool.or_false, Bool.true_or, Bool.or_true, Bool.and_true,
          Bool.true_and, Bool.false_and, Bool.and_false, Bool.not_true, Bool.not_false,
          if_true, if_false, Bool.or_self, Bool.false_eq_true, Bool.true_eq_false,
          Option.any_some, Option.any_none] at hok
        first
          | (split at hok
             · exact absurd hok (by simp)
             · rw [Except.ok.injEq, Prod.mk.injEq] at hok
               obtain ⟨hm, hmode⟩ := hok
               subst hm; subst hmode
               simp)
          | exact absurd hok (by simp)
          | (rw [Except.ok.injEq, Prod.mk.injEq] at hok
             obtain ⟨hm, hmode⟩ := hok
             subst hm; subst hmode
             simp)

theorem parse_setcolor_spec_witness :
    (∃ e, parse_setcolor_value ⟨none, none, none, none, none, none⟩ = Except.error e) ∧
    ((some ((1:ℚ)/2), none, none) : ColorSettings) = (some ((1:ℚ)/2), none, none) :=
  ⟨(parse_setcolor_spec ⟨none, none, none, none, none, none⟩).1.mpr
     (Or.inr (Or.inl ⟨rfl, rfl, rfl, rfl, rfl, rfl⟩)),
   ((parse_setcolor_spec ⟨none, none, none, some ((1:ℚ)/2), none, none⟩).2
     (some ((1:ℚ)/2), none, none) ColorMode.HSV
     (by norm_num [parse_setcolor_value])).1 rfl⟩

/-! ## The HSV round trip (C3) -/

theorem pymod1_neg_unit {x : ℚ} (h0 : -1 ≤ x) (h1 : x < 0) : pymod1 x = x + 1 := by
  have hf : ⌊x⌋ = -1 := by
    apply Int.floor_eq_iff.mpr
    constructor
    · push_cast; linarith
    · push_cast; linarith
  rw [pymod1, hf]
  push_cast
  ring

/-- Evaluate `hsv_to_rgb` once the sector index `k = ⌊6h⌋` is known. -/
theorem hsv_to_rgb_sector (h s v : ℚ) (hs : ¬s = 0) (k : ℤ) (hk0 : 0 ≤ k) (hk6 : k < 6)
    (hlow : (k : ℚ) ≤ h * 6) (hhigh : h * 6 < (k : ℚ) + 1) :
    hsv_to_rgb (h, s, v) =
      (if k = 0 then (v, v * (1 - s * (1 - (h * 6 - (k : ℚ)))), v * (1 - s))
       else if k = 1 then (v * (1 - s * (h * 6 - (k : ℚ))), v, v * (1 - s))
       else if k = 2 then (v * (1 - s), v, v * (1 - s * (1 - (h * 6 - (k : ℚ)))))
       else if k = 3 then (v * (1 - s), v * (1 - s * (h * 6 - (k : ℚ))), v)
       else if k = 4 then (v * (1 - s * (1 - (h * 6 - (k : ℚ)))), v * (1 - s), v)
       else (v, v * (1 - s), v * (1 - s * (h * 6 - (k : ℚ))))) := by
  have h60 : 0 ≤ h * 6 := le_trans (by exact_mod_cast hk0) hlow
  have htr : pytrunc (h * 6) = k := by
    rw [pytrunc, if_neg (not_lt.mpr h60)]
    exact Int.floor_eq_iff.mpr ⟨hlow, by push_cast; linarith⟩
  have hmod : k % 6 = k := Int.emod_eq_of_lt hk0 hk6
  simp only [hsv_to_rgb, htr, hmod]
  rw [if_neg hs]

/-- Converting a normalized RGB color to HSV and back is exact over `ℚ`
(CPython `colorsys` formulas). -/
theorem hsv_to_rgb_gray (x : ℚ) : hsv_to_rgb (0, 0, x) = (x, x, x) := by
  norm_num [hsv_to_rgb]

/-- Converting a normalized RGB color to HSV and back is exact over `ℚ`
(CPython `colorsys` formulas). -/
theorem hsv_rgb_roundtrip (r g b : ℚ) (hr : 0 ≤ r) (hg : 0 ≤ g) (hb : 0 ≤ b) :
    hsv_to_rgb (rgb_to_hsv (r, g, b)) = (r, g, b) := by
  by_cases heq : min r (min g b) = max r (max g b)
  · -- achromatic: the three channels are equal
    have hminr : min r (min g b) ≤ r := min_le_left _ _
    have hming : min r (min g b) ≤ g := le_trans (min_le_right _ _) (min_le_left _ _)
    have hminb : min r (min g b) ≤ b := le_trans (min_le_right _ _) (min_le_right _ _)
    have hmaxr : r ≤ max r (max g b) := le_max_left _ _
    have hmaxg : g ≤ max r (max g b) := le_trans (le_max_left _ _) (le_max_right _ _)
    have hmaxb : b ≤ max r (max g b) := le_trans (le_max_right _ _) (le_max_right _ _)
    have hrv : r = max r (max g b) := le_antisymm hmaxr (heq ▸ hminr)
    have hgv : g = max r (max g b) := le_antisymm hmaxg (heq ▸ hming)
    have hbv : b = max r (max g b) := le_antisymm hmaxb (heq ▸ hminb)
    have hstep0 : rgb_to_hsv (r, g, b) = (0, 0, max r (max g b)) := by
      simp only [rgb_to_hsv]
      rw [if_pos heq]
    rw [hstep0, hsv_to_rgb_gray, ← hrv]
    simp only [Prod.mk.injEq]
    exact ⟨trivial, hrv.trans hgv.symm, hrv.trans hbv.symm⟩
  · -- chromatic
    have hmle : min r (min g b) ≤ max r (max g b) :=
      le_trans (min_le_left _ _) (le_max_left _ _)
    have hlt : min r (min g b) < max r (max g b) := lt_of_le_of_ne hmle heq
    have hmin0 : 0 ≤ min r (min g b) := le_min hr (le_min hg hb)
    have hmax0 : 0 < max r (max g b) := lt_of_le_of_lt hmin0 hlt
    by_cases hA : g ≤ r ∧ b ≤ r
    · -- max = r
      have hM : max r (max g b) = r := max_eq_left (max_le hA.1 hA.2)
      have hr0 : 0 < r := hM ▸ hmax0
      by_cases hgb : b ≤ g
      · -- min = b
        have hm : min r (min g b) = b := by
          rw [min_eq_right hgb]; exact min_eq_right hA.2
        have hbr : b < r := by rw [hM, hm] at hlt; exact hlt
        have hrb0 : 0 < r - b := by linarith
        have hstep : rgb_to_hsv (r, g, b) =
            (pymod1 (((r - b) / (r - b) - (r - g) / (r - b)) / 6), (r - b) / r, r) := by
          simp only [rgb_to_hsv]
          rw [if_neg heq, if_pos hM.symm, hM, hm]
        have hcomb : (r - b) / (r - b) - (r - g) / (r - b) = (g - b) / (r - b) := by
          rw [div_sub_div_same]; ring_nf
        have hsne : (r - b) / r ≠ 0 := div_ne_zero (ne_of_gt hrb0) (ne_of_gt hr0)
        by_cases hgr : g < r
        · -- sector 0
          have hh0 : 0 ≤ (g - b) / (r - b) := div_nonneg (by linarith) (le_of_lt hrb0)
          have hh1 : (g - b) / (r - b) < 1 := (div_lt_one hrb0).mpr (by linarith)
          have hx6 : (g - b) / (r - b) / 6 * 6 = (g - b) / (r - b) := by ring
          have hmod : pymod1 ((g - b) / (r - b) / 6) = (g - b) / (r - b) / 6 :=
            pymod1_eq_self (by positivity) (by linarith)
          have hlow : ((0 : ℤ) : ℚ) ≤ (g - b) / (r - b) / 6 * 6 := by
            push_cast; rw [hx6]; exact hh0
          have hhigh : (g - b) / (r - b) / 6 * 6 < ((0 : ℤ) : ℚ) + 1 := by
            push_cast; rw [hx6]; linarith
          rw [hstep, hcomb, hmod,
            hsv_to_rgb_sector _ _ _ hsne 0 (by norm_num) (by norm_num) hlow hhigh,
            if_pos rfl]
          simp only [Prod.mk.injEq]
          refine ⟨trivial, ?_, ?_⟩
          · push_cast; rw [hx6]; field_simp; ring
          · field_simp
        · -- boundary g = r: sector 1 with f = 0
          have hge : g = r := le_antisymm hA.1 (not_lt.mp hgr)
          have hcomb1 : (r - b) / (r - b) - (r - g) / (r - b) = 1 := by
            rw [hge]; field_simp
          have hmod : pymod1 ((1 : ℚ) / 6) = 1 / 6 :=
            pymod1_eq_self (by norm_num) (by norm_num)
          have hlow : ((1 : ℤ) : ℚ) ≤ (1 : ℚ) / 6 * 6 := by norm_num
          have hhigh : (1 : ℚ) / 6 * 6 < ((1 : ℤ) : ℚ) + 1 := by norm_num
          rw [hstep, hcomb1, hmod,
            hsv_to_rgb_sector _ _ _ hsne 1 (by norm_num) (by norm_num) hlow hhigh,
            if_neg (by norm_num), if_pos rfl]
          simp only [Prod.mk.injEq]
          refine ⟨?_, hge.symm, ?_⟩
          · push_cast; field_simp
          · field_simp
      · -- min = g (g < b ≤ r): sector 5
        have hgb2 : g < b := not_le.mp hgb
        have hm : min r (min g b) = g := by
          rw [min_eq_left (le_of_lt hgb2)]; exact min_eq_right hA.1
        have hgr : g < r := by rw [hM, hm] at hlt; exact hlt
        have hrg0 : 0 < r - g := by linarith
        have hstep : rgb_to_hsv (r, g, b) =
            (pymod1 (((r - b) / (r - g) - (r - g) / (r - g)) / 6), (r - g) / r, r) := by
          simp only [rgb_to_hsv]
          rw [if_neg heq, if_pos hM.symm, hM, hm]
        have hcomb : (r - b) / (r - g) - (r - g) / (r - g) = (g - b) / (r - g) := by
          rw [div_sub_div_same]; ring_nf
        have hsne : (r - g) / r ≠ 0 := div_ne_zero (ne_of_gt hrg0) (ne_of_gt hr0)
        have hxlo : -1 ≤ (g - b) / (r - g) := by
          rw [le_div_iff hrg0]; linarith [hA.2]
        have hxhi : (g - b) / (r - g) < 0 := div_neg_of_neg_of_pos (by linarith) hrg0
        have hmod : pymod1 ((g - b) / (r - g) / 6) = (g - b) / (r - g) / 6 + 1 :=
          pymod1_neg_unit (by linarith) (by linarith)
        have hx6 : ((g - b) / (r - g) / 6 + 1) * 6 = (g - b) / (r - g) + 6 := by ring
        have hlow : ((5 : ℤ) : ℚ) ≤ ((g - b) / (r - g) / 6 + 1) * 6 := by
          push_cast; rw [hx6]; linarith
        have hhigh : ((g - b) / (r - g) / 6 + 1) * 6 < ((5 : ℤ) : ℚ) + 1 := by
          push_cast; rw [hx6]; linarith
        rw [hstep, hcomb, hmod,
          hsv_to_rgb_sector _ _ _ hsne 5 (by norm_num) (by norm_num) hlow hhigh,
          if_neg (by norm_num), if_neg (by norm_num), if_neg (by norm_num),
          if_neg (by norm_num), if_neg (by norm_num)]
        simp only [Prod.mk.injEq]
        refine ⟨trivial, ?_, ?_⟩
        · field_simp
        · push_cast; rw [hx6]; field_simp; ring
    · -- r is not the maximum
      have horb : r < g ∨ r < b := by
        rcases not_and_or.mp hA with h | h
        · exact Or.inl (not_le.mp h)
        · exact Or.inr (not_le.mp h)
      by_cases hgb2 : b ≤ g
      · -- max = g
        have hrg : r < g := by
          rcases horb with h | h
          · exact h
          · exact lt_of_lt_of_le h hgb2
        have hM : max r (max g b) = g := by
          rw [max_eq_left hgb2]; exact max_eq_right (le_of_lt hrg)
        have hg0 : 0 < g := hM ▸ hmax0
        have hrne : ¬(r = max r (max g b)) := fun h => absurd (h.trans hM) (ne_of_lt hrg)
        by_cases hbr2 : b ≤ r
        · -- min = b
          have hm : min r (min g b) = b := by
            rw [min_eq_right hgb2]; exact min_eq_right hbr2
          have hbg : b < g := by rw [hM, hm] at hlt; exact hlt
          have hgb0 : 0 < g - b := by linarith
          have hstep : rgb_to_hsv (r, g, b) =
              (pymod1 ((2 + (g - r) / (g - b) - (g - b) / (g - b)) / 6), (g - b) / g, g) := by
            simp only [rgb_to_hsv]
            rw [if_neg heq, if_neg hrne, if_pos hM.symm, hM, hm]
          have hsne : (g - b) / g ≠ 0 := div_ne_zero (ne_of_gt hgb0) (ne_of_gt hg0)
          by_cases hbr3 : b < r
          · -- sector 1
            have hcomb : 2 + (g - r) / (g - b) - (g - b) / (g - b) =
                2 + (b - r) / (g - b) := by
              field_simp
              ring
            have hxlo : -1 < (b - r) / (g - b) := by
              rw [lt_div_iff hgb0]; linarith
            have hxhi : (b - r) / (g - b) < 0 := div_neg_of_neg_of_pos (by linarith) hgb0
            have hmod : pymod1 ((2 + (b - r) / (g - b)) / 6) =
                (2 + (b - r) / (g - b)) / 6 :=
              pymod1_eq_self (by linarith) (by linarith)
            have hx6 : (2 + (b - r) / (g - b)) / 6 * 6 = 2 + (b - r) / (g - b) := by ring
            have hlow : ((1 : ℤ) : ℚ) ≤ (2 + (b - r) / (g - b)) / 6 * 6 := by
              push_cast; rw [hx6]; linarith
            have hhigh : (2 + (b - r) / (g - b)) / 6 * 6 < ((1 : ℤ) : ℚ) + 1 := by
              push_cast; rw [hx6]; linarith
            rw [hstep, hcomb, hmod,
              hsv_to_rgb_sector _ _ _ hsne 1 (by norm_num) (by norm_num) hlow hhigh,
              if_neg (by norm_num), if_pos rfl]
            simp only [Prod.mk.injEq]
            refine ⟨?_, trivial, ?_⟩
            · push_cast; rw [hx6]; field_simp; ring
            · field_simp
          · -- boundary b = r: sector 2 with f = 0
            have hbe : b = r := le_antisymm hbr2 (not_lt.mp hbr3)
            have hcomb : 2 + (g - r) / (g - b) - (g - b) / (g - b) = 2 := by
              rw [hbe]; field_simp
            have hmod : pymod1 ((2 : ℚ) / 6) = 2 / 6 :=
              pymod1_eq_self (by norm_num) (by norm_num)
            have hlow : ((2 : ℤ) : ℚ) ≤ (2 : ℚ) / 6 * 6 := by norm_num
            have hhigh : (2 : ℚ) / 6 * 6 < ((2 : ℤ) : ℚ) + 1 := by norm_num
            rw [hstep, hcomb, hmod,
              hsv_to_rgb_sector _ _ _ hsne 2 (by norm_num) (by norm_num) hlow hhigh,
              if_neg (by norm_num), if_neg (by norm_num), if_pos rfl]
            simp only [Prod.mk.injEq]
            refine ⟨?_, trivial, ?_⟩
            · rw [← hbe]; field_simp
            · push_cast
              norm_num
              field_simp
        · -- min = r (r < b ≤ g): sector 2 or boundary b = g
          have hrb : r < b := not_le.mp hbr2
          have hm : min r (min g b) = r := by
            rw [min_eq_right hgb2]; exact min_eq_left (le_of_lt hrb)
          have hgr0 : 0 < g - r := by linarith
          have hstep : rgb_to_hsv (r, g, b) =
              (pymod1 ((2 + (g - r) / (g - r) - (g - b) / (g - r)) / 6), (g - r) / g, g) := by
            simp only [rgb_to_hsv]
            rw [if_neg heq, if_neg hrne, if_pos hM.symm, hM, hm]
          have hsne : (g - r) / g ≠ 0 := div_ne_zero (ne_of_gt hgr0) (ne_of_gt hg0)
          by_cases hbg2 : b < g
          · -- sector 2
            have hcomb : 2 + (g - r) / (g - r) - (g - b) / (g - r) =
                2 + (b - r) / (g - r) := by
              field_simp
              ring
            have hxlo : 0 < (b - r) / (g - r) := div_pos (by linarith) hgr0
            have hxhi : (b - r) / (g - r) < 1 := (div_lt_one hgr0).mpr (by linarith)
            have hmod : pymod1 ((2 + (b - r) / (g - r)) / 6) =
                (2 + (b - r) / (g - r)) / 6 :=
              pymod1_eq_self (by linarith) (by linarith)
            have hx6 : (2 + (b - r) / (g - r)) / 6 * 6 = 2 + (b - r) / (g - r) := by ring
            have hlow : ((2 : ℤ) : ℚ) ≤ (2 + (b - r) / (g - r)) / 6 * 6 := by
              push_cast; rw [hx6]; linarith
            have hhigh : (2 + (b - r) / (g - r)) / 6 * 6 < ((2 : ℤ) : ℚ) + 1 := by
              push_cast; rw [hx6]; linarith
            rw [hstep, hcomb, hmod,
              hsv_to_rgb_sector _ _ _ hsne 2 (by norm_num) (by norm_num) hlow hhigh,
              if_neg (by norm_num), if_neg (by norm_num), if_pos rfl]
            simp only [Prod.mk.injEq]
            refine ⟨?_, trivial, ?_⟩
            · field_simp
            · push_cast; rw [hx6]; field_simp; ring
          · -- boundary b = g: sector 3 with f = 0
            have hbe : b = g := le_antisymm hgb2 (not_lt.mp hbg2)
            have hcomb : 2 + (g - r) / (g - r) - (g - b) / (g - r) = 3 := by
              rw [hbe]
              field_simp
              norm_num
            have hmod : pymod1 ((3 : ℚ) / 6) = 3 / 6 :=
              pymod1_eq_self (by norm_num) (by norm_num)
            have hlow : ((3 : ℤ) : ℚ) ≤ (3 : ℚ) / 6 * 6 := by norm_num
            have hhigh : (3 : ℚ) / 6 * 6 < ((3 : ℤ) : ℚ) + 1 := by norm_num
            rw [hstep, hcomb, hmod,
              hsv_to_rgb_sector _ _ _ hsne 3 (by norm_num) (by norm_num) hlow hhigh,
              if_neg (by norm_num), if_neg (by norm_num), if_neg (by norm_num), if_pos rfl]
            simp only [Prod.mk.injEq]
            refine ⟨?_, ?_, hbe.symm⟩
            · field_simp
            · push_cast; field_simp
      · -- max = b
        have hgb3 : g < b := not_le.mp hgb2
        have hrb : r < b := by
          rcases horb with h | h
          · exact lt_trans h hgb3
          · exact h
        have hM : max r (max g b) = b := by
          rw [max_eq_right (le_of_lt hgb3)]; exact max_eq_right (le_of_lt hrb)
        have hb0 : 0 < b := hM ▸ hmax0
        have hrne : ¬(r = max r (max g b)) := fun h => absurd (h.trans hM) (ne_of_lt hrb)
        have hgne : ¬(g = max r (max g b)) := fun h => absurd (h.trans hM) (ne_of_lt hgb3)
        by_cases hrg3 : r < g
        · -- min = r: sector 3
          have hm : min r (min g b) = r := by
            rw [min_eq_left (le_of_lt hgb3)]; exact min_eq_left (le_of_lt hrg3)
          have hbr0 : 0 < b - r := by linarith
          have hstep : rgb_to_hsv (r, g, b) =
              (pymod1 ((4 + (b - g) / (b - r) - (b - r) / (b - r)) / 6), (b - r) / b, b) := by
            simp only [rgb_to_hsv]
            rw [if_neg heq, if_neg hrne, if_neg hgne, hM, hm]
          have hsne : (b - r) / b ≠ 0 := div_ne_zero (ne_of_gt hbr0) (ne_of_gt hb0)
          have hcomb : 4 + (b - g) / (b - r) - (b - r) / (b - r) =
              4 + (r - g) / (b - r) := by
            field_simp
            ring
          have hxlo : -1 < (r - g) / (b - r) := by
            rw [lt_div_iff hbr0]; linarith
          have hxhi : (r - g) / (b - r) < 0 := div_neg_of_neg_of_pos (by linarith) hbr0
          have hmod : pymod1 ((4 + (r - g) / (b - r)) / 6) =
              (4 + (r - g) / (b - r)) / 6 :=
            pymod1_eq_self (by linarith) (by linarith)
          have hx6 : (4 + (r - g) / (b - r)) / 6 * 6 = 4 + (r - g) / (b - r) := by ring
          have hlow : ((3 : ℤ) : ℚ) ≤ (4 + (r - g) / (b - r)) / 6 * 6 := by
            push_cast; rw [hx6]; linarith
          have hhigh : (4 + (r - g) / (b - r)) / 6 * 6 < ((3 : ℤ) : ℚ) + 1 := by
            push_cast; rw [hx6]; linarith
          rw [hstep, hcomb, hmod,
            hsv_to_rgb_sector _ _ _ hsne 3 (by norm_num) (by norm_num) hlow hhigh,
            if_neg (by norm_num), if_neg (by norm_num), if_neg (by norm_num), if_pos rfl]
          simp only [Prod.mk.injEq]
          refine ⟨?_, ?_, trivial⟩
          · field_simp
          · push_cast; rw [hx6]; field_simp; ring
        · -- min = g: sector 4
          have hgr4 : g ≤ r := not_lt.mp hrg3
          have hm : min r (min g b) = g := by
            rw [min_eq_left (le_of_lt hgb3)]; exact min_eq_right hgr4
          have hgb4 : g < b := by rw [hM, hm] at hlt; exact hlt
          have hbg0 : 0 < b - g := by linarith
          have hstep : rgb_to_hsv (r, g, b) =
              (pymod1 ((4 + (b - g) / (b - g) - (b - r) / (b - g)) / 6), (b - g) / b, b) := by
            simp only [rgb_to_hsv]
            rw [if_neg heq, if_neg hrne, if_neg hgne, hM, hm]
          have hsne : (b - g) / b ≠ 0 := div_ne_zero (ne_of_gt hbg0) (ne_of_gt hb0)
          have hcomb : 4 + (b - g) / (b - g) - (b - r) / (b - g) =
              4 + (r - g) / (b - g) := by
            field_simp
            ring
          have hxlo : 0 ≤ (r - g) / (b - g) := div_nonneg (by linarith) (le_of_lt hbg0)
          have hxhi : (r - g) / (b - g) < 1 := (div_lt_one hbg0).mpr (by linarith)
          have hmod : pymod1 ((4 + (r - g) / (b - g)) / 6) =
              (4 + (r - g) / (b - g)) / 6 :=
            pymod1_eq_self (by linarith) (by linarith)
          have hx6 : (4 + (r - g) / (b - g)) / 6 * 6 = 4 + (r - g) / (b - g) := by ring
          have hlow : ((4 : ℤ) : ℚ) ≤ (4 + (r - g) / (b - g)) / 6 * 6 := by
            push_cast; rw [hx6]; linarith
          have hhigh : (4 + (r - g) / (b - g)) / 6 * 6 < ((4 : ℤ) : ℚ) + 1 := by
            push_cast; rw [hx6]; linarith
          rw [hstep, hcomb, hmod,
            hsv_to_rgb_sector _ _ _ hsne 4 (by norm_num) (by norm_num) hlow hhigh,
            if_neg (by norm_num), if_neg (by norm_num), if_neg (by norm_num),
            if_neg (by norm_num), if_pos rfl]
          simp only [Prod.mk.injEq]
          refine ⟨?_, ?_, trivial⟩
          · push_cast; rw [hx6]; field_simp; ring
          · field_simp

/-- C3: converting a normalized palette to HSV and back to RGB returns it
exactly over `ℚ` (in particular within any floating-point tolerance, including
at the achromatic boundary), and the two converters are applied element-wise,
preserving palette order and length. -/
theorem table_roundtrip_spec (table : List (Color ℚ))
    (hnorm : ∀ c ∈ table, (0 ≤ c.1 ∧ c.1 ≤ 1) ∧ (0 ≤ c.2.1 ∧ c.2.1 ≤ 1) ∧
      (0 ≤ c.2.2 ∧ c.2.2 ≤ 1)) :
    table_hsv_to_rgb (table_rgb_to_hsv table) = table ∧
    (table_rgb_to_hsv table).length = table.length ∧
    (table_hsv_to_rgb table).length = table.length ∧
    ∀ (i : ℕ) (hi : i < table.length),
      (table_rgb_to_hsv table).get ⟨i, by simpa [table_rgb_to_hsv] using hi⟩ =
        rgb_to_hsv (table.get ⟨i, hi⟩) ∧
      (table_hsv_to_rgb table).get ⟨i, by simpa [table_hsv_to_rgb] using hi⟩ =
        hsv_to_rgb (table.get ⟨i, hi⟩) := by
  have hpt : ∀ c ∈ table, hsv_to_rgb (rgb_to_hsv c) = c := by
    intro c hc
    obtain ⟨⟨h1, _⟩, ⟨h2, _⟩, h3, _⟩ := hnorm c hc
    exact hsv_rgb_roundtrip c.1 c.2.1 c.2.2 h1 h2 h3
  refine ⟨?_, by simp [table_rgb_to_hsv], by simp [table_hsv_to_rgb], ?_⟩
  · rw [table_hsv_to_rgb, table_rgb_to_hsv, List.map_map]
    exact (List.map_congr_left fun c hc => hpt c hc).trans (List.map_id table)
  · intro i hi
    constructor
    · simp only [table_rgb_to_hsv]
      rw [List.get_map]
    · simp only [table_hsv_to_rgb]
      rw [List.get_map]

theorem table_roundtrip_spec_witness :
    table_hsv_to_rgb (table_rgb_to_hsv [((1:ℚ)/2, 1/3, 1/4)]) = [((1:ℚ)/2, 1/3, 1/4)] :=
  (table_roundtrip_spec [((1:ℚ)/2, 1/3, 1/4)]
    (by intro c hc; rw [List.mem_singleton] at hc; subst hc; norm_num)).1

end Gifthing
